import Mathlib

/-!
Verification of the codebase-indexing core of the `nextgenai-coding-assistant`
VS Code extension (sources: `src/codebaseIndexer.ts`, `src/indexStorage.ts`,
the `FileWatcherIndexer` class of `src/settingsPanel.ts`).

The embedding is shallow: every definition below transcribes the corresponding
TypeScript function.  The filesystem is a finite tree value, the persistent
store is a pair of lookup maps, asynchronous callbacks of the file watcher are
the transitions of an explicit state machine, and the handful of regular
expressions used for ignore patterns and symbol extraction are compiled to a
small regex AST whose backtracking matcher mirrors JavaScript semantics
(greedy quantifiers, ordered alternation, leftmost match).

Recursive functions whose recursion is not structural take an explicit fuel
argument that strictly exceeds the recursion depth reachable from the other
arguments, so that every definition evaluates by kernel reduction; invariant
lemmas are proved for all fuels, so no fuel-adequacy argument is needed.
-/

namespace VSCodeIndexer

/-! ### Character-list string primitives

The JavaScript string operations the source uses (`split`, `trim`,
`startsWith`, `replace` of a single character, `toLowerCase`) are defined
here over `List Char` so that every definition evaluates by kernel
reduction (the corresponding core `String` functions recurse over byte
positions and do not). -/

/-- `str.split(sep)` for a one-character separator. -/
def splitChar (sep : Char) : List Char → List (List Char)
  | [] => [[]]
  | c :: rest =>
    if c = sep then [] :: splitChar sep rest
    else
      match splitChar sep rest with
      | [] => [[c]]
      | w :: ws => (c :: w) :: ws

/-- Whitespace for `trim` (the ASCII part of the JavaScript set). -/
def isTrimWs (c : Char) : Bool :=
  c == ' ' || c == '\t' || c == '\n' || c == '\r' || c == Char.ofNat 11 || c == Char.ofNat 12

/-- `str.trim()`. -/
def trimChars (cs : List Char) : List Char :=
  ((cs.dropWhile isTrimWs).reverse.dropWhile isTrimWs).reverse

/-- `str.startsWith(pre)`: is the first list a prefix of the second. -/
def startsWithChars : List Char → List Char → Bool
  | [], _ => true
  | _ :: _, [] => false
  | c :: cs, d :: ds => c == d && startsWithChars cs ds

/-- `str.startsWith(pre)` on strings. -/
def strStartsWith (s pre : String) : Bool :=
  startsWithChars pre.toList s.toList

/-! ### Data model (codebaseIndexer.ts lines 6-30) -/

/-- The `summary` aggregate of `CodebaseIndex` (lines 25-29). -/
structure Summary where
  functions : Nat
  classes : Nat
  total : Nat
deriving Repr, DecidableEq

/-- `CodeFile` (lines 6-16).  `size`, `lastModified` are the stat numbers,
`hash` is the hex rendering of the 32-bit rolling hash. -/
structure CodeFile where
  id : String
  path : String
  relativePath : String
  language : String
  content : String
  size : Nat
  lastModified : Nat
  hash : String
  symbols : List String
deriving Repr, DecidableEq

/-- `CodebaseIndex` (lines 18-30).  The `languages` histogram object is
modelled as an insertion-ordered association list with unique keys, exactly
the observable behaviour of a JavaScript object used as a map. -/
structure CodebaseIndex where
  rootPath : String
  files : List CodeFile
  totalSize : Nat
  fileCount : Nat
  lastIndexed : Nat
  languages : List (String × Nat)
  summary : Summary
deriving Repr, DecidableEq

/-! ### Ignore-file glob matching (codebaseIndexer.ts lines 336-350)

`matchesPattern` builds a regex source text by four successive global string
replacements and tests the anchored regex against the path.  The replacements
are transcribed one by one; the resulting regex text is then parsed into the
tiny fragment of regex syntax those replacements can produce (literals,
backslash escapes, `.`, and the five-character class-star `[^/]*`).  Any
other regex metacharacter makes the parse fail, which -- like a pattern whose
`new RegExp` construction throws in the source (line 347-349) -- yields
`false`. -/

/-- `.replace(/\./g, '\\.')` (line 339). -/
def escapeDots : List Char → List Char
  | [] => []
  | '.' :: rest => '\\' :: '.' :: escapeDots rest
  | c :: rest => c :: escapeDots rest

/-- `.replace(/\*\*/g, '.*')` (line 340): global, left-to-right,
non-overlapping. -/
def replaceDoubleStar : List Char → List Char
  | '*' :: '*' :: rest => '.' :: '*' :: replaceDoubleStar rest
  | c :: rest => c :: replaceDoubleStar rest
  | [] => []

/-- `.replace(/\*/g, '[^/]*')` (line 341).  Note this also rewrites the `*`
of any `.*` produced by the previous replacement. -/
def replaceSingleStar : List Char → List Char
  | [] => []
  | '*' :: rest => '[' :: '^' :: '/' :: ']' :: '*' :: replaceSingleStar rest
  | c :: rest => c :: replaceSingleStar rest

/-- `.replace(/\?/g, '.')` (line 342). -/
def replaceQuestion : List Char → List Char
  | [] => []
  | '?' :: rest => '.' :: replaceQuestion rest
  | c :: rest => c :: replaceQuestion rest

/-- The regex source text built at lines 338-342 (without the `^`/`$`
anchors, which are accounted for by whole-string matching below). -/
def globTranslate (pat : String) : String :=
  String.mk (replaceQuestion (replaceSingleStar (replaceDoubleStar (escapeDots pat.toList))))

/-- One atom of the regex fragment that `globTranslate` can emit. -/
inductive GlobAtom where
  | lit (c : Char)
  | anyChar
  | nonSlashStar
deriving Repr, DecidableEq

/-- Characters that are regex metacharacters in JavaScript.  A translated
pattern still containing one of these outside the recognised forms falls
outside the fragment handled here (the braces are written via code points to
keep them out of string literals). -/
def regexMetaChars : List Char :=
  ['*', '+', '?', '(', ')', '[', ']', '|', '^', '$', Char.ofNat 123, Char.ofNat 125]

/-- Parse the translated regex text into atoms.  `none` plays the role of the
`catch` branch at lines 347-349: the pattern never matches. -/
def compileGlobAtoms : List Char → Option (List GlobAtom)
  | [] => some []
  | '\\' :: c :: rest => (compileGlobAtoms rest).map (GlobAtom.lit c :: ·)
  | ['\\'] => none
  | '[' :: '^' :: '/' :: ']' :: '*' :: rest =>
    (compileGlobAtoms rest).map (GlobAtom.nonSlashStar :: ·)
  | '.' :: rest => (compileGlobAtoms rest).map (GlobAtom.anyChar :: ·)
  | c :: rest =>
    if c ∈ regexMetaChars then none else (compileGlobAtoms rest).map (GlobAtom.lit c :: ·)

/-- Anchored matching of an atom list against a character list, with
backtracking for `[^/]*`.  The fuel strictly bounds the recursion depth
(every step shortens `atoms + input`); callers pass more than enough. -/
def atomsGo : Nat → List GlobAtom → List Char → Bool
  | 0, _, _ => false
  | _ + 1, [], [] => true
  | _ + 1, [], _ :: _ => false
  | _ + 1, GlobAtom.lit _ :: _, [] => false
  | f + 1, GlobAtom.lit c :: ts, d :: ds => c == d && atomsGo f ts ds
  | _ + 1, GlobAtom.anyChar :: _, [] => false
  | f + 1, GlobAtom.anyChar :: ts, _ :: ds => atomsGo f ts ds
  | f + 1, GlobAtom.nonSlashStar :: ts, [] => atomsGo f ts []
  | f + 1, GlobAtom.nonSlashStar :: ts, d :: ds =>
    atomsGo f ts (d :: ds) || (!(d == '/') && atomsGo f (GlobAtom.nonSlashStar :: ts) ds)

/-- `CodebaseIndexer.matchesPattern(path, pattern)` (lines 336-350). -/
def matchesPattern (path pat : String) : Bool :=
  match compileGlobAtoms (globTranslate pat).toList with
  | none => false
  | some atoms => atomsGo (atoms.length + path.length + 1) atoms path.toList

/-! ### A small backtracking regex engine

`extractSymbols` (codebaseIndexer.ts lines 368-413) drives four JavaScript
regexes through `exec` loops.  Each regex is transcribed into the AST below;
the matcher enumerates the candidate matches of a regex against a prefix of
the input in JavaScript backtracking priority order (greedy quantifiers
first, alternation left first), each candidate paired with the text of the
single capture group.  `exec` with the `g` flag then repeatedly takes the
leftmost match from the current position. -/

/-- JavaScript `\s` restricted to the ASCII whitespace characters (the only
ones exercised here; the Unicode space characters behave identically). -/
def isWsJS (c : Char) : Bool :=
  c == ' ' || c == '\t' || c == '\n' || c == '\r' || c == Char.ofNat 11 || c == Char.ofNat 12

/-- JavaScript `\w`: `[A-Za-z0-9_]`. -/
def isWordJS (c : Char) : Bool := c.isAlphanum || c == '_'

/-- `[a-zA-Z_$]`. -/
def identStartTS (c : Char) : Bool := c.isAlpha || c == '_' || c == '$'

/-- `[a-zA-Z0-9_$]`. -/
def identContTS (c : Char) : Bool := c.isAlphanum || c == '_' || c == '$'

/-- `[a-zA-Z_]`. -/
def identStart (c : Char) : Bool := c.isAlpha || c == '_'

/-- `[a-zA-Z0-9_]`. -/
def identCont (c : Char) : Bool := c.isAlphanum || c == '_'

/-- Regex AST covering exactly the constructs of the four source regexes.
`starCls`/`plusCls` are `p*`/`p+` over a character class, `starWordWs p q` is
the `(?:\w+\s+)*` shape, `group` is the (unique) capture group. -/
inductive Re where
  | eps
  | str (s : List Char)
  | cls (p : Char → Bool)
  | starCls (p : Char → Bool)
  | plusCls (p : Char → Bool)
  | starWordWs (p q : Char → Bool)
  | seq (a b : Re)
  | alt (a b : Re)
  | opt (a : Re)
  | group (a : Re)

/-- Match a literal string prefix. -/
def strChomp : List Char → List Char → Option (List Char)
  | [], s => some s
  | _ :: _, [] => none
  | c :: cs, d :: ds => if c == d then strChomp cs ds else none

/-- Remainders after `p*`, greedy (longest consumption) first. -/
def starClsRems (p : Char → Bool) : List Char → List (List Char)
  | [] => [[]]
  | d :: ds => if p d then starClsRems p ds ++ [d :: ds] else [d :: ds]

/-- Remainders after `p+`, greedy first. -/
def plusClsRems (p : Char → Bool) : List Char → List (List Char)
  | [] => []
  | d :: ds => if p d then starClsRems p ds else []

/-- Remainders after one `p+q+` unit, in backtracking priority order. -/
def unitRems (p q : Char → Bool) (s : List Char) : List (List Char) :=
  (plusClsRems p s).flatMap (plusClsRems q)

theorem length_lt_of_mem_starClsRems {p : Char → Bool} {s t : List Char}
    (h : t ∈ starClsRems p s) : t.length ≤ s.length := by
  induction s with
  | nil => simp [starClsRems] at h; simp [h]
  | cons d ds ih =>
    simp only [starClsRems] at h
    by_cases hp : p d
    · simp [hp] at h
      rcases h with h | h
      · exact le_trans (ih h) (by simp)
      · simp [h]
    · simp [hp] at h; simp [h]

theorem length_lt_of_mem_plusClsRems {p : Char → Bool} {s t : List Char}
    (h : t ∈ plusClsRems p s) : t.length < s.length := by
  cases s with
  | nil => simp [plusClsRems] at h
  | cons d ds =>
    simp only [plusClsRems] at h
    by_cases hp : p d
    · simp [hp] at h
      exact lt_of_le_of_lt (length_lt_of_mem_starClsRems h) (by simp)
    · simp [hp] at h

theorem length_lt_of_mem_unitRems {p q : Char → Bool} {s t : List Char}
    (h : t ∈ unitRems p q s) : t.length < s.length := by
  simp only [unitRems, List.mem_flatMap] at h
  obtain ⟨m, hm, ht⟩ := h
  exact lt_trans (length_lt_of_mem_plusClsRems ht) (length_lt_of_mem_plusClsRems hm)

/-- Remainders after `(?:p+q+)*`, greedy first.  Fuel bounds the iteration
count (each unit consumes at least two characters); callers pass the input
length plus one, which is always sufficient. -/
def starWordWsGo (p q : Char → Bool) : Nat → List Char → List (List Char)
  | 0, s => [s]
  | f + 1, s => (unitRems p q s).flatMap (starWordWsGo p q f) ++ [s]

/-- All candidate matches of `re` against a prefix of `s`, in JavaScript
backtracking priority order, as pairs (remaining suffix, capture-group
text). -/
def runRe : Re → List Char → List (List Char × Option (List Char))
  | .eps, s => [(s, none)]
  | .str cs, s =>
    match strChomp cs s with
    | some r => [(r, none)]
    | none => []
  | .cls _, [] => []
  | .cls p, d :: ds => if p d then [(ds, none)] else []
  | .starCls p, s => (starClsRems p s).map (·, none)
  | .plusCls p, s => (plusClsRems p s).map (·, none)
  | .starWordWs p q, s => (starWordWsGo p q (s.length + 1) s).map (·, none)
  | .seq a b, s =>
    (runRe a s).flatMap fun r =>
      (runRe b r.1).map fun r2 => (r2.1, r.2.orElse fun _ => r2.2)
  | .alt a b, s => runRe a s ++ runRe b s
  | .opt a, s => runRe a s ++ [(s, none)]
  | .group a, s => (runRe a s).map fun r => (r.1, some (s.take (s.length - r.1.length)))

/-- Preferred (first) match of `re` at the head of `s`: consumed length and
capture-group text. -/
def matchAt (re : Re) (s : List Char) : Option (Nat × List Char) :=
  match runRe re s with
  | [] => none
  | (r, cap) :: _ => some (s.length - r.length, cap.getD [])

/-- The `while ((match = regex.exec(content)) !== null)` loop: starting from
position `pos`, find the leftmost match, record (position, capture), continue
at the match end.  Fuel bounds the iterations; an (impossible for the four
source regexes) empty match ends the enumeration, mirroring the fact that
the source loop would not terminate there. -/
def execGo (re : Re) (s : List Char) : Nat → Nat → List (Nat × List Char)
  | 0, _ => []
  | f + 1, pos =>
    if pos ≤ s.length then
      match matchAt re (s.drop pos) with
      | none => execGo re s f (pos + 1)
      | some (len, cap) =>
        if len = 0 then [] else (pos, cap) :: execGo re s f (pos + len)
    else []

/-- All `exec` matches of `re` over `content` as (position, capture) pairs. -/
def execAll (re : Re) (content : String) : List (Nat × String) :=
  (execGo re content.toList (content.length + 1) 0).map fun r => (r.1, String.mk r.2)

/-! ### The four symbol-extraction regexes (codebaseIndexer.ts 368-413) -/

/-- Line 373: an identifier `[a-zA-Z_$][a-zA-Z0-9_$]*` as the capture group. -/
def tsIdentGroup : Re := .group (.seq (.cls identStartTS) (.starCls identContTS))

/-- Line 386/393/399/406: `([a-zA-Z_][a-zA-Z0-9_]*)`. -/
def identGroup : Re := .group (.seq (.cls identStart) (.starCls identCont))

/-- Line 373: `(?:async\s+)?(?:function|const|let|var)\s+([a-zA-Z_$][a-zA-Z0-9_$]*)\s*(?:=\s*)?(?:async\s*)?\(` -/
def tsFuncRe : Re :=
  .seq (.opt (.seq (.str "async".toList) (.plusCls isWsJS)))
    (.seq (.alt (.str "function".toList)
        (.alt (.str "const".toList) (.alt (.str "let".toList) (.str "var".toList))))
      (.seq (.plusCls isWsJS)
        (.seq tsIdentGroup
          (.seq (.starCls isWsJS)
            (.seq (.opt (.seq (.str "=".toList) (.starCls isWsJS)))
              (.seq (.opt (.seq (.str "async".toList) (.starCls isWsJS)))
                (.str "(".toList)))))))

/-- Line 380: `class\s+([a-zA-Z_$][a-zA-Z0-9_$]*)` -/
def tsClassRe : Re :=
  .seq (.str "class".toList) (.seq (.plusCls isWsJS) tsIdentGroup)

/-- Line 386: `def\s+([a-zA-Z_][a-zA-Z0-9_]*)\s*\(` -/
def pyFuncRe : Re :=
  .seq (.str "def".toList)
    (.seq (.plusCls isWsJS) (.seq identGroup (.seq (.starCls isWsJS) (.str "(".toList))))

/-- Line 393: `class\s+([a-zA-Z_][a-zA-Z0-9_]*)` -/
def pyClassRe : Re :=
  .seq (.str "class".toList) (.seq (.plusCls isWsJS) identGroup)

/-- Line 399: `(?:public\s+)?(?:class|interface)\s+([a-zA-Z_][a-zA-Z0-9_]*)` -/
def javaClassRe : Re :=
  .seq (.opt (.seq (.str "public".toList) (.plusCls isWsJS)))
    (.seq (.alt (.str "class".toList) (.str "interface".toList))
      (.seq (.plusCls isWsJS) identGroup))

/-- Line 406: `(?:public|private|protected)?\s+(?:static\s+)?(?:\w+\s+)*([a-zA-Z_][a-zA-Z0-9_]*)\s*\(` -/
def javaMethodRe : Re :=
  .seq (.opt (.alt (.str "public".toList)
      (.alt (.str "private".toList) (.str "protected".toList))))
    (.seq (.plusCls isWsJS)
      (.seq (.opt (.seq (.str "static".toList) (.plusCls isWsJS)))
        (.seq (.starWordWs isWordJS isWsJS)
          (.seq identGroup (.seq (.starCls isWsJS) (.str "(".toList))))))

/-- `CodebaseIndexer.extractSymbols(content, language)` (lines 368-413):
one regex pass per symbol kind, the passes concatenated in source order. -/
def extractSymbols (content language : String) : List String :=
  if language = "typescript" ∨ language = "javascript" then
    (execAll tsFuncRe content).map (fun m => "fn:" ++ m.2) ++
      (execAll tsClassRe content).map (fun m => "class:" ++ m.2)
  else if language = "python" then
    (execAll pyFuncRe content).map (fun m => "fn:" ++ m.2) ++
      (execAll pyClassRe content).map (fun m => "class:" ++ m.2)
  else if language = "java" ∨ language = "csharp" then
    (execAll javaClassRe content).map (fun m => "class:" ++ m.2) ++
      (execAll javaMethodRe content).map (fun m => "method:" ++ m.2)
  else []

/-! ### Ignore policy (codebaseIndexer.ts lines 33-155, 309-334) -/

/-- `commonIgnorePaths` (lines 34-145), transcribed verbatim (including its
duplicate entries). -/
def commonIgnorePaths : List String :=
  ["node_modules", ".npm", "npm-debug.log", "package-lock.json", "yarn.lock",
   "pnpm-lock.yaml",
   "__pycache__", ".venv", "venv", "env", ".env", ".env.local", ".env.*.local",
   "pip-log.txt", "pip-delete-this-directory.txt", ".Python", "build",
   "develop-eggs", "dist", "downloads", "eggs", ".eggs", "lib", "lib64",
   "parts", "sdist", "var", "wheels", "*.egg-info", ".installed.cfg", "*.egg",
   ".git", ".gitignore", ".gitattributes", ".github", ".gitlab", ".hg", ".svn",
   ".vscode", ".idea", ".sublime-project", ".sublime-workspace", ".project",
   ".pydevproject", ".settings", ".classpath",
   "dist", "build", "out", ".next", ".nuxt", ".cache", ".parcel-cache",
   ".vercel", ".turbo", "coverage",
   ".gradle", "target", ".m2",
   "cmake-build-debug", "cmake-build-release", ".o", ".a", ".so",
   "vendor", ".gopath",
   "target", "Cargo.lock",
   ".dockerignore", "Dockerfile",
   ".DS_Store", "Thumbs.db", ".AppleDouble", ".LSOverride", ".TemporaryItems",
   "*.zip", "*.tar", "*.gz", "*.rar",
   "tmp", "temp", ".tmp", "logs", "*.log", ".cache"]

/-- `commonIgnoreFiles` (lines 147-155). -/
def commonIgnoreFiles : List String :=
  [".gitignore", ".env", ".env.local", ".DS_Store", "package-lock.json",
   "yarn.lock", "pnpm-lock.yaml"]

/-- `CodebaseIndexer.shouldIgnore(fileName, relativePath, isDir)` (lines
309-334).  `isDir` is accepted but, as in the source, unused. -/
def shouldIgnore (gitignorePatterns : List String)
    (fileName relativePath : String) (_isDir : Bool) : Bool :=
  let normalizedPath :=
    String.mk (relativePath.toList.map fun c => if c = '\\' then '/' else c)
  let parts := (splitChar '/' normalizedPath.toList).map String.mk
  if commonIgnoreFiles.contains fileName then true
  else if parts.any (fun part => commonIgnorePaths.contains part) then true
  else gitignorePatterns.any (fun pat => matchesPattern normalizedPath pat)

/-! ### Language classification (codebaseIndexer.ts lines 157-187, 415-457) -/

/-- `supportedLanguages` (lines 157-187). -/
def supportedLanguages : List String :=
  ["typescript", "javascript", "python", "java", "csharp", "cpp", "c", "go",
   "rust", "php", "ruby", "swift", "kotlin", "scala", "haskell", "r", "matlab",
   "groovy", "shell", "bash", "sql", "html", "css", "scss", "less", "json",
   "yaml", "xml", "markdown"]

/-- The `extensionMap` object (lines 417-453). -/
def extensionMap : List (String × String) :=
  [("ts", "typescript"), ("tsx", "typescript"), ("js", "javascript"),
   ("jsx", "javascript"), ("py", "python"), ("java", "java"), ("cs", "csharp"),
   ("cpp", "cpp"), ("cc", "cpp"), ("cxx", "cpp"), ("c", "c"), ("go", "go"),
   ("rs", "rust"), ("php", "php"), ("rb", "ruby"), ("swift", "swift"),
   ("kt", "kotlin"), ("scala", "scala"), ("hs", "haskell"), ("r", "r"),
   ("m", "matlab"), ("groovy", "groovy"), ("sh", "shell"), ("bash", "bash"),
   ("sql", "sql"), ("html", "html"), ("htm", "html"), ("css", "css"),
   ("scss", "scss"), ("less", "less"), ("json", "json"), ("yaml", "yaml"),
   ("yml", "yaml"), ("xml", "xml"), ("md", "markdown")]

/-- Characters strictly after the last `.` of a list, if any. -/
def afterLastDot : List Char → Option (List Char)
  | [] => none
  | '.' :: rest => ((afterLastDot rest).map some).getD (some rest)
  | _ :: rest => afterLastDot rest

/-- `path.extname(filePath).substring(1)`: the extension of the basename,
a leading dot of the basename (dotfile) not counting as extension
separator. -/
def extPart (filePath : String) : String :=
  let base := (splitChar '/' filePath.toList).getLastD []
  match base with
  | [] => ""
  | _ :: rest => String.mk ((afterLastDot rest).getD [])

/-- `CodebaseIndexer.getLanguageFromPath` (lines 415-457). -/
def getLanguageFromPath (filePath : String) : Option String :=
  let ext := String.mk ((extPart filePath).toList.map Char.toLower)
  match extensionMap.lookup ext with
  | none => none
  | some lang => if supportedLanguages.contains lang then some lang else none

/-! ### Content hash (codebaseIndexer.ts lines 459-467) -/

/-- Wrap an integer to the signed 32-bit range, as JavaScript's `| 0`, `<< `
and `&` coercions do. -/
def toInt32 (x : Int) : Int := (x + 2 ^ 31) % 2 ^ 32 - 2 ^ 31

/-- One step of the rolling hash: `hash = (hash << 5) - hash + char;
hash = hash & hash` (lines 463-464).  Character codes are code points,
which coincide with UTF-16 code units on the Basic Multilingual Plane. -/
def hashStep (h : Int) (c : Char) : Int :=
  toInt32 (toInt32 (h * 32) - h + c.toNat)

/-- `Number.prototype.toString(16)` on a (possibly negative) integer. -/
def toHexJS (x : Int) : String :=
  if x < 0 then "-" ++ String.mk (Nat.toDigits 16 x.natAbs)
  else String.mk (Nat.toDigits 16 x.toNat)

/-- `CodebaseIndexer.simpleHash` (lines 459-467). -/
def simpleHash (s : String) : String :=
  toHexJS (s.toList.foldl hashStep 0)

/-! ### Filesystem model and the directory walk (codebaseIndexer.ts 189-307)

A directory entry carries the data the walk observes: its name, whether
`stat`/`readFile`/`readdir` succeed on it (`statOk`, `readOk`, `listOk` --
a `false` models the corresponding promise rejecting), the stat numbers and
the UTF-8 content. -/

inductive FSEntry where
  | file (name : String) (statOk : Bool) (size : Nat) (mtime : Nat)
      (readOk : Bool) (content : String)
  | dir (name : String) (listOk : Bool) (entries : List FSEntry)

/-- The workspace root directory: whether its `readdir` succeeds, and its
entries. -/
structure FSDir where
  listOk : Bool
  entries : List FSEntry

/-- Walk state: the index being accumulated plus the fresh-id counter.  The
source draws ids from `Date.now()` and `Math.random()` (line 281); the model
makes the supply explicit as a function of a running counter. -/
structure IdxState where
  idx : CodebaseIndex
  ctr : Nat
deriving Repr, DecidableEq

/-- `path.relative(rootPath, path.join(dirPath, name))` for an entry of the
directory whose root-relative path is `pre` (empty for the root itself). -/
def joinRel (pre name : String) : String :=
  if pre = "" then name else pre ++ "/" ++ name

/-- `index.languages[language] = (index.languages[language] || 0) + 1`
(line 295): update the existing key of the histogram in place or append
it. -/
def bump : List (String × Nat) → String → List (String × Nat)
  | [], k => [(k, 1)]
  | (a, n) :: rest, k =>
    if a = k then (a, n + 1) :: rest else (a, n) :: bump rest k

/-- `CodebaseIndexer.indexFile` (lines 255-307).  A `stat` failure is caught
(line 304-306) leaving the state unchanged; a read failure substitutes the
empty string (line 275); oversized and unclassified files are skipped. -/
def indexFile (mkId : Nat → String) (statOk : Bool) (size mtime : Nat)
    (readOk : Bool) (content : String) (fullPath relPath : String)
    (st : IdxState) : IdxState :=
  if !statOk then st
  else if size > 500 * 1024 then st
  else
    match getLanguageFromPath fullPath with
    | none => st
    | some language =>
      let content := if readOk then content else ""
      let symbols := extractSymbols content language
      let f : CodeFile :=
        { id := mkId st.ctr, path := fullPath, relativePath := relPath,
          language := language, content := content, size := size,
          lastModified := mtime, hash := simpleHash content, symbols := symbols }
      { idx :=
          { st.idx with
            files := st.idx.files ++ [f],
            totalSize := st.idx.totalSize + size,
            fileCount := st.idx.fileCount + 1,
            languages := bump st.idx.languages language,
            summary :=
              { total := st.idx.summary.total + symbols.length,
                functions := st.idx.summary.functions +
                  (symbols.filter fun s =>
                    strStartsWith s "fn:" || strStartsWith s "method:").length,
                classes := st.idx.summary.classes +
                  (symbols.filter fun s =>
                    strStartsWith s "class:" || strStartsWith s "struct:").length } },
        ctr := st.ctr + 1 }

/-- `CodebaseIndexer.scanDirectory` (lines 226-253), as the loop over a
directory listing.  The per-entry ignore check happens before the
directory/file dispatch; an unlistable subdirectory is caught at lines
250-252 and skipped.  `fuel` is a pure recursion budget making the nested
tree recursion manifestly total and kernel-computable: the source has no
analogue, every theorem below holds for every budget, and any budget at
least the number of tree nodes makes the walk complete. -/
def scanDirectory (pats : List String) (mkId : Nat → String) (rootPath : String) :
    Nat → List FSEntry → String → IdxState → IdxState
  | 0, _, _, st => st
  | _ + 1, [], _, st => st
  | f + 1, .file name statOk size mtime readOk content :: rest, pre, st =>
    let rel := joinRel pre name
    let st' :=
      if shouldIgnore pats name rel false then st
      else indexFile mkId statOk size mtime readOk content
        (rootPath ++ "/" ++ rel) rel st
    scanDirectory pats mkId rootPath f rest pre st'
  | f + 1, .dir name listOk entries :: rest, pre, st =>
    let rel := joinRel pre name
    let st' :=
      if shouldIgnore pats name rel true then st
      else if listOk then scanDirectory pats mkId rootPath f entries rel st else st
    scanDirectory pats mkId rootPath f rest pre st'

/-- `CodebaseIndexer.loadGitignore` (lines 352-366): read `.gitignore` at the
workspace root if present, split into lines, trim, drop blanks and comments.
A read failure is caught, leaving the (initially empty) pattern list. -/
def loadGitignore (fs : FSDir) : List String :=
  match fs.entries.findSome? (fun e =>
      match e with
      | .file name _ _ _ readOk content =>
        if name = ".gitignore" then some (readOk, content) else none
      | .dir _ _ _ => none) with
  | some (true, content) =>
    (((splitChar '\n' content.toList).map (fun l => String.mk (trimChars l)))).filter
      (fun line => line ≠ "" && !strStartsWith line "#")
  | some (false, _) => []
  | none => []

/-- `CodebaseIndexer.indexWorkspace` (lines 189-224) without the final
`Except` wrapper: load the ignore file, then scan from the root.  The `catch`
inside `scanDirectory` (lines 250-252) also covers the root listing, so an
unlistable root leaves the freshly initialised index untouched.  `fuel` is
the walk's recursion budget (see `scanDirectory`). -/
def buildIndex (mkId : Nat → String) (fuel : Nat) (fs : FSDir)
    (workspacePath : String) (now : Nat) : CodebaseIndex :=
  let pats := loadGitignore fs
  let init : IdxState :=
    { idx :=
        { rootPath := workspacePath, files := [], totalSize := 0,
          fileCount := 0, lastIndexed := now, languages := [],
          summary := { functions := 0, classes := 0, total := 0 } },
      ctr := 0 }
  if fs.listOk then (scanDirectory pats mkId workspacePath fuel fs.entries "" init).idx
  else init.idx

/-- `CodebaseIndexer.indexWorkspace` (lines 189-224).  The returned promise
is modelled as `Except`: `.error` would be a rejection.  Every failure path
of the walk is caught inside `scanDirectory`/`indexFile`/`loadGitignore`, so
the `try/catch` at lines 208-223 never observes an error and the result is
always `.ok`. -/
def indexWorkspace (mkId : Nat → String) (fuel : Nat) (fs : FSDir)
    (workspacePath : String) (now : Nat) : Except String CodebaseIndex :=
  .ok (buildIndex mkId fuel fs workspacePath now)

/-! ### Index persistence (indexStorage.ts)

The store is modelled as two lookup maps: the per-workspace metadata
document (the JSON file `<workspaceName>.json`) and the per-workspace,
per-id content blobs (`<workspaceName>/contents/<id>.txt`).  Writing a file
is updating the map; `JSON.parse(JSON.stringify(x))` on the plain-data
metadata document is the identity, so serialisation is not modelled
further.  Writes succeed in this model (the claims under verification all
assume every blob is written and readable). -/

/-- One element of `compactIndex.files` (indexStorage.ts lines 27-35):
everything of a `CodeFile` except `content`, `symbols`, `lastModified`. -/
structure CompactFile where
  id : String
  path : String
  relativePath : String
  language : String
  size : Nat
  hash : String
deriving Repr, DecidableEq

/-- The metadata document `compactIndex` (lines 21-36): everything of a
`CodebaseIndex` except per-file `content` and the `summary` aggregate. -/
structure CompactIndex where
  rootPath : String
  fileCount : Nat
  totalSize : Nat
  lastIndexed : Nat
  languages : List (String × Nat)
  files : List CompactFile
deriving Repr, DecidableEq

/-- A file record as reconstructed by `loadFileContents` (lines 94-112):
the persisted metadata spread together with the blob `content`.  There is
no `symbols` and no `lastModified` field to restore. -/
structure LoadedFile where
  id : String
  path : String
  relativePath : String
  language : String
  size : Nat
  hash : String
  content : String
deriving Repr, DecidableEq

/-- The index reconstructed by `loadIndex` (lines 66-69): the spread of the
metadata document with `files` replaced.  There is no `summary` field to
restore. -/
structure LoadedIndex where
  rootPath : String
  fileCount : Nat
  totalSize : Nat
  lastIndexed : Nat
  languages : List (String × Nat)
  files : List LoadedFile
deriving Repr, DecidableEq

/-- The storage directory: metadata documents keyed by workspace name,
content blobs keyed by workspace name and file id. -/
structure StorageState where
  meta : String → Option CompactIndex
  blobs : String → String → Option String

/-- `IndexStorage.getWorkspaceName` (lines 114-116):
`path.basename(workspacePath).replace(/[^a-z0-9-]/gi, '_')`. -/
def getWorkspaceName (workspacePath : String) : String :=
  String.mk (((splitChar '/' workspacePath.toList).getLastD []).map
    fun c => if c.isAlphanum || c == '-' then c else '_')

/-- Project a `CodeFile` to its persisted metadata record (lines 27-35). -/
def toCompactFile (f : CodeFile) : CompactFile :=
  { id := f.id, path := f.path, relativePath := f.relativePath,
    language := f.language, size := f.size, hash := f.hash }

/-- The `compactIndex` metadata document for an index (lines 21-36). -/
def compactOf (index : CodebaseIndex) : CompactIndex :=
  { rootPath := index.rootPath, fileCount := index.fileCount,
    totalSize := index.totalSize, lastIndexed := index.lastIndexed,
    languages := index.languages, files := index.files.map toCompactFile }

/-- `IndexStorage.saveFileContents` (lines 79-92): write one blob per file,
sequentially, later writes overwriting earlier ones with the same id. -/
def writeBlobs (files : List CodeFile) (m : String → Option String) :
    String → Option String :=
  files.foldl (fun acc f => fun key => if key = f.id then some f.content else acc key) m

/-- `IndexStorage.saveIndex` (lines 15-49): write the metadata document for
the workspace key, then every content blob. -/
def saveIndex (σ : StorageState) (workspacePath : String)
    (index : CodebaseIndex) : StorageState :=
  let name := getWorkspaceName workspacePath
  { meta := fun k => if k = name then some (compactOf index) else σ.meta k,
    blobs := fun w => if w = name then writeBlobs index.files (σ.blobs w) else σ.blobs w }

/-- `IndexStorage.loadIndex` (lines 51-77) with `loadFileContents` (lines
94-112): read the metadata document (absent → `none`, the `return null`),
then read each referenced blob, a missing blob yielding the empty string
(lines 104-107). -/
def loadIndex (σ : StorageState) (workspacePath : String) : Option LoadedIndex :=
  let name := getWorkspaceName workspacePath
  match σ.meta name with
  | none => none
  | some m =>
    some
      { rootPath := m.rootPath, fileCount := m.fileCount,
        totalSize := m.totalSize, lastIndexed := m.lastIndexed,
        languages := m.languages,
        files := m.files.map fun f =>
          { id := f.id, path := f.path, relativePath := f.relativePath,
            language := f.language, size := f.size, hash := f.hash,
            content := (σ.blobs name f.id).getD "" } }

/-! ### The file watcher / debouncer (settingsPanel.ts, class
`FileWatcherIndexer`, lines 662-846)

The handlers `onFileChanged` (734-750), the debounce-timer callback
(744-749), `reindexWorkspace` (755-792), `forceReindex` (832-846) and the
completion of an in-flight re-index are modelled as atomic transitions of a
state machine; the JavaScript event loop serialises them exactly so.  A
workspace folder is assumed open (`vscode.workspace.workspaceFolders[0]`),
and the re-index inside `reindexWorkspace` is assumed to succeed, producing
the index carried by the `complete` event.  `walkCount`, `storage` and
`notified` instrument, in order, the number of `indexer.indexWorkspace`
invocations, the last index handed to `indexStorage.saveIndex`, and the
indexes handed to the `onIndexComplete` subscriber. -/

structure WState where
  timerArmed : Bool
  isIndexing : Bool
  pendingChanges : Bool
  currentIndex : Option CodebaseIndex
  walkCount : Nat
  storage : Option CodebaseIndex
  notified : List CodebaseIndex
deriving Repr, DecidableEq

/-- The four observable events: a filesystem notification, the debounce
timer firing, a manual force re-index, and completion of the in-flight
re-index with its resulting index. -/
inductive WEvent where
  | notify
  | timerFire
  | force
  | complete (index : CodebaseIndex)
deriving Repr, DecidableEq

/-- The synchronous prefix of `reindexWorkspace` (lines 755-763): bail out
if there is no current index (the workspace folder is assumed present),
otherwise mark indexing, clear the pending flag and start the walk. -/
def startReindex (s : WState) : WState :=
  match s.currentIndex with
  | none => s
  | some _ =>
    { s with isIndexing := true, pendingChanges := false,
             walkCount := s.walkCount + 1 }

/-- One transition of the watcher. -/
def step (s : WState) : WEvent → WState
  | .notify =>
    -- onFileChanged (734-750): set the pending flag, cancel and re-arm the
    -- single debounce timer.
    { s with pendingChanges := true, timerArmed := true }
  | .timerFire =>
    -- The setTimeout callback (744-749), possible only while a timer is
    -- armed: if changes are pending and no index is running, re-index.
    if s.timerArmed then
      let s' := { s with timerArmed := false }
      if s'.pendingChanges ∧ ¬s'.isIndexing then startReindex s' else s'
    else s
  | .force =>
    -- forceReindex (832-846): a no-op while indexing, otherwise clear the
    -- pending flag and call reindexWorkspace.
    if s.isIndexing then s else startReindex { s with pendingChanges := false }
  | .complete index =>
    -- The tail of reindexWorkspace (768-791): save, publish, notify, drop
    -- the indexing flag, and re-arm the debounce cycle if changes arrived
    -- while the walk ran.
    if s.isIndexing then
      let s' :=
        { s with isIndexing := false, currentIndex := some index,
                 storage := some index, notified := s.notified ++ [index] }
      if s'.pendingChanges then { s' with timerArmed := true } else s'
    else s

/-- `FileWatcherIndexer.setCurrentIndex` (797-800). -/
def setCurrentIndex (s : WState) (index : CodebaseIndex) : WState :=
  { s with currentIndex := some index }

/-- Run a sequence of events. -/
def run (s : WState) (events : List WEvent) : WState :=
  events.foldl step s

/-- The idle state after a first manual index recorded `index`: no timer,
not indexing, nothing pending. -/
def idleWith (index : CodebaseIndex) : WState :=
  { timerArmed := false, isIndexing := false, pendingChanges := false,
    currentIndex := some index, walkCount := 0, storage := none,
    notified := [] }

/-! ### Helper lemmas -/

/-- Sum of the values of the languages histogram. -/
def sumLang (l : List (String × Nat)) : Nat :=
  (l.map Prod.snd).sum

theorem sumLang_bump (l : List (String × Nat)) (k : String) :
    sumLang (bump l k) = sumLang l + 1 := by
  induction l with
  | nil => simp [bump, sumLang]
  | cons p rest ih =>
    obtain ⟨a, n⟩ := p
    by_cases h : a = k
    · simp [bump, h, sumLang]
      omega
    · simp [bump, h, sumLang] at ih ⊢
      omega

/-- Any state predicate preserved by `indexFile` is preserved by the whole
walk, for every fuel. -/
theorem scanDirectory_preserves (pats : List String) (mkId : Nat → String)
    (rootPath : String) (P : IdxState → Prop)
    (hIF : ∀ statOk size mtime readOk content fullPath relPath st,
      P st → P (indexFile mkId statOk size mtime readOk content fullPath relPath st)) :
    ∀ (fuel : Nat) (l : List FSEntry) (pre : String) (st : IdxState),
      P st → P (scanDirectory pats mkId rootPath fuel l pre st) := by
  intro fuel
  induction fuel with
  | zero => intro l pre st h; simpa [scanDirectory] using h
  | succ f ih =>
    intro l pre st h
    match l with
    | [] => simpa [scanDirectory] using h
    | .file name statOk size mtime readOk content :: rest =>
      rw [scanDirectory]
      apply ih
      split
      · exact h
      · exact hIF _ _ _ _ _ _ _ _ h
    | .dir name listOk entries :: rest =>
      rw [scanDirectory]
      apply ih
      split
      · exact h
      · split
        · exact ih _ _ _ h
        · exact h

/-- Every match recorded by the `exec` loop lies at or after the start
position. -/
theorem execGo_pos_le (re : Re) (s : List Char) :
    ∀ (f pos : Nat) (x : Nat × List Char), x ∈ execGo re s f pos → pos ≤ x.1 := by
  intro f
  induction f with
  | zero => intro pos x hx; simp [execGo] at hx
  | succ f ih =>
    intro pos x hx
    rw [execGo] at hx
    by_cases hp : pos ≤ s.length
    · rw [if_pos hp] at hx
      match hm : matchAt re (s.drop pos) with
      | none =>
        rw [hm] at hx
        exact le_trans (Nat.le_succ pos) (ih _ _ hx)
      | some (len, cap) =>
        rw [hm] at hx
        dsimp only at hx
        by_cases hlen : len = 0
        · rw [if_pos hlen] at hx; simp at hx
        · rw [if_neg hlen] at hx
          rcases List.mem_cons.mp hx with h | h
          · simp [h]
          · exact le_trans (Nat.le_add_right pos len) (ih _ _ h)
    · rw [if_neg hp] at hx; simp at hx

/-- The match positions produced by the `exec` loop are strictly
increasing: matches are reported in first-occurrence order within one
pass. -/
theorem execGo_chain (re : Re) (s : List Char) :
    ∀ (f pos : Nat), List.Chain' (· < ·) ((execGo re s f pos).map (·.1)) := by
  intro f
  induction f with
  | zero => intro pos; simp [execGo]
  | succ f ih =>
    intro pos
    rw [execGo]
    by_cases hp : pos ≤ s.length
    · rw [if_pos hp]
      match hm : matchAt re (s.drop pos) with
      | none => exact ih (pos + 1)
      | some (len, cap) =>
        dsimp only
        by_cases hlen : len = 0
        · rw [if_pos hlen]; simp
        · rw [if_neg hlen]
          simp only [List.map_cons]
          refine List.chain'_cons'.mpr ⟨?_, ih (pos + len)⟩
          intro y hy
          obtain ⟨x, hx, hxy⟩ :=
            List.exists_of_mem_map (List.mem_of_mem_head? hy)
          have := execGo_pos_le re s f (pos + len) x hx
          have hlen1 : 1 ≤ len := Nat.one_le_iff_ne_zero.mpr hlen
          omega
    · rw [if_neg hp]; simp

/-- A blob write leaves keys with other ids untouched. -/
theorem writeBlobs_apply_of_not_mem (files : List CodeFile)
    (m : String → Option String) (key : String)
    (h : key ∉ files.map (·.id)) : writeBlobs files m key = m key := by
  induction files generalizing m with
  | nil => rfl
  | cons f rest ih =>
    simp only [List.map_cons, List.mem_cons, not_or] at h
    simp only [writeBlobs, List.foldl_cons] at *
    rw [ih _ h.2, if_neg h.1]

/-- With pairwise-distinct ids, each file's blob holds exactly its own
content after the save. -/
theorem writeBlobs_apply_self (files : List CodeFile)
    (m : String → Option String) (f : CodeFile) (hf : f ∈ files)
    (hnd : (files.map (·.id)).Nodup) :
    writeBlobs files m f.id = some f.content := by
  induction files generalizing m with
  | nil => simp at hf
  | cons g rest ih =>
    simp only [List.map_cons, List.nodup_cons] at hnd
    rcases List.mem_cons.mp hf with h | h
    · subst h
      simp only [writeBlobs, List.foldl_cons]
      rw [show (List.foldl (fun acc g => fun key =>
          if key = g.id then some g.content else acc key)
          (fun key => if key = f.id then some f.content else m key) rest)
          = writeBlobs rest (fun key => if key = f.id then some f.content else m key) from rfl]
      rw [writeBlobs_apply_of_not_mem rest _ _ hnd.1]
      simp
    · simp only [writeBlobs, List.foldl_cons]
      exact ih _ h hnd.2

/-- Blob writes never erase a present blob. -/
theorem writeBlobs_isSome_of_isSome (files : List CodeFile)
    (m : String → Option String) (key : String)
    (h : (m key).isSome = true) : (writeBlobs files m key).isSome = true := by
  induction files generalizing m with
  | nil => exact h
  | cons g rest ih =>
    simp only [writeBlobs, List.foldl_cons]
    apply ih
    by_cases hk : key = g.id
    · simp [hk]
    · simpa [hk] using h

/-- Every file that was saved has a blob. -/
theorem writeBlobs_isSome (files : List CodeFile)
    (m : String → Option String) (f : CodeFile) (hf : f ∈ files) :
    (writeBlobs files m f.id).isSome = true := by
  induction files generalizing m with
  | nil => simp at hf
  | cons g rest ih =>
    simp only [writeBlobs, List.foldl_cons]
    rcases List.mem_cons.mp hf with h | h
    · subst h
      apply writeBlobs_isSome_of_isSome
      simp
    · exact ih _ h

/-- The ids of a produced index are the id supply applied to an initial
segment of the counters, in order. -/
theorem buildIndex_files_id (mkId : Nat → String) (fuel : Nat) (fs : FSDir)
    (ws : String) (now : Nat) :
    ∃ k, (buildIndex mkId fuel fs ws now).files.map (·.id)
      = (List.range k).map mkId := by
  unfold buildIndex
  dsimp only
  split
  · refine ⟨_, scanDirectory_preserves (loadGitignore fs) mkId ws
      (fun st => st.idx.files.map (·.id) = (List.range st.ctr).map mkId)
      ?_ fuel fs.entries "" _ (by simp)⟩
    intro statOk size mtime readOk content fullPath relPath st h
    unfold indexFile
    split
    · exact h
    · split
      · exact h
      · split
        · exact h
        · simp only [List.map_append, List.range_succ, h]
          rfl
  · simp

/-- With an injective id supply, the ids of a produced index are pairwise
distinct. -/
theorem buildIndex_ids_nodup (mkId : Nat → String)
    (hinj : Function.Injective mkId) (fuel : Nat) (fs : FSDir) (ws : String)
    (now : Nat) :
    ((buildIndex mkId fuel fs ws now).files.map (·.id)).Nodup := by
  obtain ⟨k, hk⟩ := buildIndex_files_id mkId fuel fs ws now
  rw [hk]
  exact (List.nodup_range k).map hinj

/-- Loading right after saving recovers, for an index with pairwise
distinct file ids, the persisted metadata together with every file's exact
content. -/
theorem loadIndex_saveIndex_of_nodup (σ : StorageState) (ws : String)
    (index : CodebaseIndex) (hnd : (index.files.map (·.id)).Nodup) :
    loadIndex (saveIndex σ ws index) ws
      = some
        { rootPath := index.rootPath, fileCount := index.fileCount,
          totalSize := index.totalSize, lastIndexed := index.lastIndexed,
          languages := index.languages,
          files := index.files.map fun f =>
            { id := f.id, path := f.path, relativePath := f.relativePath,
              language := f.language, size := f.size, hash := f.hash,
              content := f.content } } := by
  simp only [loadIndex, saveIndex, compactOf, if_true]
  congr 1
  congr 1
  rw [List.map_map]
  apply List.map_congr_left
  intro f hf
  simp only [Function.comp, toCompactFile]
  rw [writeBlobs_apply_self index.files _ f hf hnd]
  rfl

/-! ### Shared concrete values for counterexamples and witnesses -/

/-- An injective id supply for concrete instantiations. -/
def sampleMkId : Nat → String := fun n => String.mk (List.replicate n 'a')

/-- The empty store. -/
def emptyStorage : StorageState :=
  { meta := fun _ => none, blobs := fun _ _ => none }

/-- A tiny workspace: one 4-byte Python file. -/
def sampleFs : FSDir :=
  { listOk := true, entries := [.file "a.py" true 4 2 true "x=1"] }

/-- An empty index value. -/
def sampleIndex : CodebaseIndex :=
  { rootPath := "/w", files := [], totalSize := 0, fileCount := 0,
    lastIndexed := 0, languages := [],
    summary := { functions := 0, classes := 0, total := 0 } }

/-- A fresh walk state over `sampleIndex`. -/
def sampleSt : IdxState := { idx := sampleIndex, ctr := 0 }

/-- A default `CodeFile` value. -/
def sampleCodeFile : CodeFile :=
  { id := "", path := "", relativePath := "", language := "", content := "",
    size := 0, lastModified := 0, hash := "", symbols := [] }

/-- A watcher state with a re-index in flight. -/
def busyState : WState :=
  { timerArmed := false, isIndexing := true, pendingChanges := true,
    currentIndex := some sampleIndex, walkCount := 1, storage := none,
    notified := [] }

/-- A watcher state before any index has been recorded. -/
def unseededState : WState :=
  { timerArmed := true, isIndexing := false, pendingChanges := true,
    currentIndex := none, walkCount := 0, storage := none, notified := [] }

/-! ### Claims -/

/-- C1, counterexample: on a root whose directory listing fails
(`listOk := false`, modelling a missing or unreadable root), the promise
returned by `indexWorkspace` does not reject -- it resolves (`Except.ok`)
with an Index whose `fileCount` is `0` and whose file list is empty,
because the `catch` inside `scanDirectory` (codebaseIndexer.ts lines
250-252) swallows the root `readdir` failure before the `try/catch` of
`indexWorkspace` (lines 208-223) can observe it. -/
theorem indexWorkspace_unlistable_root_returns_ok :
    indexWorkspace sampleMkId 100 { listOk := false, entries := [] } "/root" 3
      = Except.ok
        { rootPath := "/root", files := [], totalSize := 0, fileCount := 0,
          lastIndexed := 3, languages := [],
          summary := { functions := 0, classes := 0, total := 0 } } := by
  rfl

/-- C1, amended: for every root whose walk cannot begin (the initial
directory listing fails), `indexWorkspace` resolves successfully with the
freshly initialised empty Index (`fileCount = 0`, no files); the failure is
caught and logged inside `scanDirectory` and never surfaces to the
caller. -/
theorem indexWorkspace_unlistable_root_empty_index (mkId : Nat → String)
    (fuel : Nat) (entries : List FSEntry) (workspacePath : String) (now : Nat) :
    indexWorkspace mkId fuel { listOk := false, entries := entries }
        workspacePath now
      = Except.ok
        { rootPath := workspacePath, files := [], totalSize := 0,
          fileCount := 0, lastIndexed := now, languages := [],
          summary := { functions := 0, classes := 0, total := 0 } } := by
  rfl

/-- C2: the glob-to-regex translation of `matchesPattern` first rewrites
`**` to `.*` and then rewrites every remaining `*` -- including the one it
just produced -- to `[^/]*`, so `a/**/b` becomes the anchored regex
`a/.[^/]*/b`, one arbitrary character followed by a separator-free run.
Consequently `**` does not match across a `/` separator: the pattern
`a/**/b` matches `a/x/b` but not `a/x/y/b`, contradicting the specified
`**` = any sequence including separators. -/
theorem matchesPattern_doublestar_no_separator :
    globTranslate "a/**/b" = "a/.[^/]*/b" ∧
    matchesPattern "a/x/b" "a/**/b" = true ∧
    matchesPattern "a/x/y/b" "a/**/b" = false := by
  exact ⟨by decide, by decide, by decide⟩

/-- C4, counterexample: `extractSymbols` is not ordered by first occurrence
in the content.  In the Python content below the `class A` definition
occurs at position 0 and `def b` at position 9, yet the function symbol is
returned first, because the function-regex pass runs to completion before
the class-regex pass (codebaseIndexer.ts lines 384-395). -/
theorem extractSymbols_not_first_occurrence_order :
    extractSymbols "class A:\ndef b():" "python" = ["fn:b", "class:A"] ∧
    execAll pyFuncRe "class A:\ndef b():" = [(9, "b")] ∧
    execAll pyClassRe "class A:\ndef b():" = [(0, "A")] := by
  exact ⟨by decide, by decide, by decide⟩

/-- C4, amended: for every content and supported language tag,
`extractSymbols` returns the symbols grouped by extraction pass -- for
TypeScript/JavaScript and Python all `fn:` symbols then all `class:`
symbols, for Java/C# all `class:` symbols then all `method:` symbols, and
the empty sequence for every other language -- and within each pass the
symbols appear in strictly increasing match-position order (first-occurrence
order within the pass); duplicates are permitted. -/
theorem extractSymbols_grouped_by_pass (content : String) :
    (extractSymbols content "typescript"
      = (execAll tsFuncRe content).map (fun m => "fn:" ++ m.2) ++
        (execAll tsClassRe content).map (fun m => "class:" ++ m.2)) ∧
    (extractSymbols content "javascript"
      = (execAll tsFuncRe content).map (fun m => "fn:" ++ m.2) ++
        (execAll tsClassRe content).map (fun m => "class:" ++ m.2)) ∧
    (extractSymbols content "python"
      = (execAll pyFuncRe content).map (fun m => "fn:" ++ m.2) ++
        (execAll pyClassRe content).map (fun m => "class:" ++ m.2)) ∧
    (extractSymbols content "java"
      = (execAll javaClassRe content).map (fun m => "class:" ++ m.2) ++
        (execAll javaMethodRe content).map (fun m => "method:" ++ m.2)) ∧
    (extractSymbols content "csharp"
      = (execAll javaClassRe content).map (fun m => "class:" ++ m.2) ++
        (execAll javaMethodRe content).map (fun m => "method:" ++ m.2)) ∧
    (extractSymbols content "go" = []) ∧
    (∀ re : Re, List.Chain' (· < ·) ((execAll re content).map Prod.fst)) := by
  refine ⟨rfl, rfl, rfl, rfl, rfl, rfl, fun re => ?_⟩
  have h := execGo_chain re content.toList (content.length + 1) 0
  simpa [execAll, List.map_map, Function.comp] using h

/-- Any file present after an `indexFile` step was either already present
or is the freshly appended file, which passed the size guard. -/
theorem mem_files_indexFile {mkId : Nat → String} {statOk : Bool}
    {size mtime : Nat} {readOk : Bool} {content fullPath relPath : String}
    {st : IdxState} {c : CodeFile}
    (hc : c ∈ (indexFile mkId statOk size mtime readOk content fullPath
      relPath st).idx.files) :
    c ∈ st.idx.files ∨ (c.size = size ∧ ¬size > 500 * 1024) := by
  unfold indexFile at hc
  split at hc
  · exact Or.inl hc
  · split at hc
    · exact Or.inl hc
    · rename_i hsize
      split at hc
      · exact Or.inl hc
      · dsimp only at hc
        rcases List.mem_append.mp hc with h | h
        · exact Or.inl h
        · simp only [List.mem_singleton] at h
          subst h
          exact Or.inr ⟨rfl, hsize⟩

/-- C7: a file whose stat size strictly exceeds the fixed 500 KiB ceiling
(512000 bytes) is excluded: `indexFile` returns the walk state unchanged
(so the file contributes nothing to `files`, `totalSize`, `fileCount`, the
`languages` histogram or the symbol summary), and consequently every file
of every produced Index has size at most 512000. -/
theorem oversized_file_excluded :
    (∀ (mkId : Nat → String) (statOk : Bool) (size mtime : Nat)
      (readOk : Bool) (content fullPath relPath : String) (st : IdxState),
      size > 500 * 1024 →
      indexFile mkId statOk size mtime readOk content fullPath relPath st = st) ∧
    (∀ (mkId : Nat → String) (fuel : Nat) (fs : FSDir) (ws : String)
      (now : Nat) (cf : CodeFile),
      cf ∈ (buildIndex mkId fuel fs ws now).files → cf.size ≤ 500 * 1024) := by
  constructor
  · intro mkId statOk size mtime readOk content fullPath relPath st h
    unfold indexFile
    split
    · rfl
    · simp [h]
  · intro mkId fuel fs ws now
    unfold buildIndex
    dsimp only
    split
    · intro cf hcf
      refine scanDirectory_preserves (loadGitignore fs) mkId ws
        (fun st => ∀ c ∈ st.idx.files, c.size ≤ 500 * 1024) ?_
        fuel fs.entries "" _ (by simp) cf hcf
      intro statOk size mtime readOk content fullPath relPath st hP c hc
      rcases mem_files_indexFile hc with h | h
      · exact hP c h
      · omega
    · intro cf hcf
      simp at hcf

/-- C8: in every produced Index the values of the `languages` histogram sum
to exactly `fileCount`, and this invariant is preserved by every
`indexFile` step of the walk (an appended file increments `fileCount` and
exactly one language count by one; a skipped file increments neither). -/
theorem languages_histogram_sums_to_fileCount :
    (∀ (mkId : Nat → String) (fuel : Nat) (fs : FSDir) (ws : String)
      (now : Nat),
      sumLang (buildIndex mkId fuel fs ws now).languages
        = (buildIndex mkId fuel fs ws now).fileCount) ∧
    (∀ (mkId : Nat → String) (statOk : Bool) (size mtime : Nat)
      (readOk : Bool) (content fullPath relPath : String) (st : IdxState),
      sumLang st.idx.languages = st.idx.fileCount →
      sumLang (indexFile mkId statOk size mtime readOk content fullPath
          relPath st).idx.languages
        = (indexFile mkId statOk size mtime readOk content fullPath
          relPath st).idx.fileCount) := by
  have hIF : ∀ (mkId : Nat → String) (statOk : Bool) (size mtime : Nat)
      (readOk : Bool) (content fullPath relPath : String) (st : IdxState),
      sumLang st.idx.languages = st.idx.fileCount →
      sumLang (indexFile mkId statOk size mtime readOk content fullPath
          relPath st).idx.languages
        = (indexFile mkId statOk size mtime readOk content fullPath
          relPath st).idx.fileCount := by
    intro mkId statOk size mtime readOk content fullPath relPath st h
    unfold indexFile
    split
    · exact h
    · split
      · exact h
      · split
        · exact h
        · dsimp only
          rw [sumLang_bump, h]
  refine ⟨?_, hIF⟩
  intro mkId fuel fs ws now
  unfold buildIndex
  dsimp only
  split
  · exact scanDirectory_preserves (loadGitignore fs) mkId ws
      (fun st => sumLang st.idx.languages = st.idx.fileCount)
      (hIF mkId) fuel fs.entries "" _ (by simp [sumLang])
  · simp [sumLang]

set_option maxRecDepth 400000 in
/-- C7, witness at concrete inputs: a 600000-byte file is dropped without
any change to the walk state, and the file indexed from the sample
workspace respects the ceiling. -/
theorem oversized_file_excluded_witness :
    indexFile sampleMkId true 600000 0 true "" "/w/big.py" "big.py" sampleSt
      = sampleSt ∧
    ((buildIndex sampleMkId 10 sampleFs "/w" 0).files.headD
      sampleCodeFile).size ≤ 500 * 1024 :=
  ⟨oversized_file_excluded.1 sampleMkId true 600000 0 true "" "/w/big.py"
      "big.py" sampleSt (by decide),
   oversized_file_excluded.2 sampleMkId 10 sampleFs "/w" 0 _ (by decide)⟩

set_option maxRecDepth 400000 in
/-- C8, witness at concrete inputs. -/
theorem languages_histogram_witness :
    sumLang (buildIndex sampleMkId 10 sampleFs "/w" 0).languages
      = (buildIndex sampleMkId 10 sampleFs "/w" 0).fileCount ∧
    sumLang (indexFile sampleMkId true 3 0 true "x=2" "/w/b.py" "b.py"
        sampleSt).idx.languages
      = (indexFile sampleMkId true 3 0 true "x=2" "/w/b.py" "b.py"
        sampleSt).idx.fileCount :=
  ⟨languages_histogram_sums_to_fileCount.1 sampleMkId 10 sampleFs "/w" 0,
   languages_histogram_sums_to_fileCount.2 sampleMkId true 3 0 true "x=2"
     "/w/b.py" "b.py" sampleSt rfl⟩

/-- C3: save-then-load round trip for a produced Index.  With an injective
id supply (the source draws ids from clock + randomness precisely to make
them unique, and the spec asserts id uniqueness per snapshot), loading
right after saving returns an index whose file records preserve, in order,
`relativePath`, `language`, `size`, `hash` and the exact `content` string
of every file of the original, and every persisted metadata record's id
resolves to a stored content blob. -/
theorem saveIndex_loadIndex_roundtrip (mkId : Nat → String)
    (hinj : Function.Injective mkId) (fuel : Nat) (fs : FSDir)
    (wsIndex wsSave : String) (now : Nat) (σ : StorageState) :
    loadIndex (saveIndex σ wsSave (buildIndex mkId fuel fs wsIndex now)) wsSave
      = some
        { rootPath := (buildIndex mkId fuel fs wsIndex now).rootPath,
          fileCount := (buildIndex mkId fuel fs wsIndex now).fileCount,
          totalSize := (buildIndex mkId fuel fs wsIndex now).totalSize,
          lastIndexed := (buildIndex mkId fuel fs wsIndex now).lastIndexed,
          languages := (buildIndex mkId fuel fs wsIndex now).languages,
          files := (buildIndex mkId fuel fs wsIndex now).files.map fun f =>
            { id := f.id, path := f.path, relativePath := f.relativePath,
              language := f.language, size := f.size, hash := f.hash,
              content := f.content } } ∧
    ((compactOf (buildIndex mkId fuel fs wsIndex now)).files.all fun r =>
      ((saveIndex σ wsSave (buildIndex mkId fuel fs wsIndex now)).blobs
        (getWorkspaceName wsSave) r.id).isSome) = true := by
  have hnd := buildIndex_ids_nodup mkId hinj fuel fs wsIndex now
  refine ⟨loadIndex_saveIndex_of_nodup σ wsSave _ hnd, ?_⟩
  rw [List.all_eq_true]
  intro r hr
  simp only [compactOf, List.mem_map] at hr
  obtain ⟨f, hf, rfl⟩ := hr
  simp only [saveIndex, if_true]
  exact writeBlobs_isSome _ _ f hf

/-- C3, witness: the round trip instantiated at the sample workspace with a
concrete injective id supply and the empty store. -/
theorem saveIndex_loadIndex_roundtrip_witness :
    loadIndex (saveIndex emptyStorage "/w" (buildIndex sampleMkId 10 sampleFs
        "/w" 5)) "/w"
      = some
        { rootPath := (buildIndex sampleMkId 10 sampleFs "/w" 5).rootPath,
          fileCount := (buildIndex sampleMkId 10 sampleFs "/w" 5).fileCount,
          totalSize := (buildIndex sampleMkId 10 sampleFs "/w" 5).totalSize,
          lastIndexed := (buildIndex sampleMkId 10 sampleFs "/w" 5).lastIndexed,
          languages := (buildIndex sampleMkId 10 sampleFs "/w" 5).languages,
          files := (buildIndex sampleMkId 10 sampleFs "/w" 5).files.map fun f =>
            { id := f.id, path := f.path, relativePath := f.relativePath,
              language := f.language, size := f.size, hash := f.hash,
              content := f.content } } ∧
    ((compactOf (buildIndex sampleMkId 10 sampleFs "/w" 5)).files.all fun r =>
      ((saveIndex emptyStorage "/w" (buildIndex sampleMkId 10 sampleFs "/w"
        5)).blobs (getWorkspaceName "/w") r.id).isSome) = true :=
  saveIndex_loadIndex_roundtrip sampleMkId
    (fun a b h => by
      simpa [sampleMkId] using congrArg (fun s => s.data.length) h)
    10 sampleFs "/w" "/w" 5 emptyStorage

/-- C10: the snapshot returned by `loadIndex` after `saveIndex` carries
exactly the persisted projection of the original Index: the top-level
`rootPath`, `fileCount`, `totalSize`, `lastIndexed` and `languages`, and
per file exactly `id`, `path`, `relativePath`, `language`, `size`, `hash`
(plus the separately stored content blob).  The reconstruction types
(`LoadedIndex`, `LoadedFile`) have no `summary`, `symbols` or
`lastModified` fields to restore -- those are not part of the persisted
metadata document. -/
theorem load_after_save_drops_unpersisted_fields (σ : StorageState)
    (ws : String) (index : CodebaseIndex) :
    ∃ l : LoadedIndex,
      loadIndex (saveIndex σ ws index) ws = some l ∧
      l.rootPath = index.rootPath ∧ l.fileCount = index.fileCount ∧
      l.totalSize = index.totalSize ∧ l.lastIndexed = index.lastIndexed ∧
      l.languages = index.languages ∧
      l.files.map (fun f =>
          (f.id, f.path, f.relativePath, f.language, f.size, f.hash))
        = index.files.map fun f =>
          (f.id, f.path, f.relativePath, f.language, f.size, f.hash) := by
  simp only [loadIndex, saveIndex, compactOf, if_true]
  refine ⟨_, rfl, rfl, rfl, rfl, rfl, rfl, ?_⟩
  rw [List.map_map, List.map_map]
  rfl

/-! ### Watcher claims -/

/-- The state after at least one notification from idle: pending changes
flagged and the debounce timer armed. -/
def pendingState (index : CodebaseIndex) : WState :=
  { idleWith index with pendingChanges := true, timerArmed := true }

theorem run_append (s : WState) (a b : List WEvent) :
    run s (a ++ b) = run (run s a) b :=
  List.foldl_append step s a b

theorem run_replicate_notify (index : CodebaseIndex) (m : Nat) :
    run (idleWith index) (List.replicate (m + 1) WEvent.notify)
      = pendingState index := by
  induction m with
  | zero => rfl
  | succ m ih =>
    -- one notification from idle already reaches pendingState, and further
    -- notifications are idempotent on it
    have idem : ∀ t, run (pendingState index) (List.replicate t WEvent.notify)
        = pendingState index := by
      intro t
      induction t with
      | zero => rfl
      | succ t iht =>
        rw [List.replicate_succ]
        show run (step (pendingState index) WEvent.notify)
          (List.replicate t WEvent.notify) = pendingState index
        rw [show step (pendingState index) WEvent.notify = pendingState index
          from rfl]
        exact iht
    rw [List.replicate_succ]
    show run (step (idleWith index) WEvent.notify)
      (List.replicate (m + 1) WEvent.notify) = pendingState index
    rw [show step (idleWith index) WEvent.notify = pendingState index from rfl]
    exact idem (m + 1)

/-- C5: starting from the idle watcher holding a current index, a burst of
`n ≥ 1` filesystem notifications all arriving before the debounce timer
fires triggers exactly one re-index when the timer then elapses
(`walkCount` becomes 1), and one further notification arriving after that
re-index completed triggers exactly one more (`walkCount` becomes 2).  The
timed debounce window is abstracted by event order: notifications within
the window are exactly those delivered before the `timerFire` event. -/
theorem debounce_burst_single_reindex (n : Nat) (hn : 1 ≤ n)
    (i j k : CodebaseIndex) :
    (run (idleWith i) (List.replicate n WEvent.notify
        ++ [WEvent.timerFire])).walkCount = 1 ∧
    (run (idleWith i) (List.replicate n WEvent.notify
        ++ [WEvent.timerFire, WEvent.complete j, WEvent.notify,
            WEvent.timerFire, WEvent.complete k])).walkCount = 2 := by
  obtain ⟨m, rfl⟩ : ∃ m, n = m + 1 := ⟨n - 1, by omega⟩
  constructor
  · rw [run_append, run_replicate_notify]
    rfl
  · rw [run_append, run_replicate_notify]
    rfl

/-- C5, witness: a burst of three notifications. -/
theorem debounce_burst_single_reindex_witness :
    (run (idleWith sampleIndex) (List.replicate 3 WEvent.notify
        ++ [WEvent.timerFire])).walkCount = 1 ∧
    (run (idleWith sampleIndex) (List.replicate 3 WEvent.notify
        ++ [WEvent.timerFire, WEvent.complete sampleIndex, WEvent.notify,
            WEvent.timerFire, WEvent.complete sampleIndex])).walkCount = 2 :=
  debounce_burst_single_reindex 3 (by decide) sampleIndex sampleIndex
    sampleIndex

/-- C6: while a re-index is in flight (`isIndexing = true`), a
`forceReindex` request is a pure no-op (the state, including the in-flight
run's instrumented output, is unchanged); a notification only sets the
pending-changes flag (and resets the debounce timer, which fires without
effect during indexing); a timer expiry starts nothing; and when the
in-flight run completes with changes pending, the debounce cycle is
re-armed. -/
theorem force_reindex_noop_while_indexing (s : WState)
    (index : CodebaseIndex) (h : s.isIndexing = true) :
    step s WEvent.force = s ∧
    step s WEvent.notify = { s with pendingChanges := true, timerArmed := true } ∧
    step s WEvent.timerFire = { s with timerArmed := false } ∧
    (s.pendingChanges = true →
      step s (WEvent.complete index)
        = { s with isIndexing := false, currentIndex := some index,
                   storage := some index, notified := s.notified ++ [index],
                   timerArmed := true }) := by
  obtain ⟨ta, ii, pc, ci, wc, sg, nt⟩ := s
  simp only at h
  subst h
  refine ⟨by simp [step], rfl, ?_, ?_⟩
  · cases ta <;> simp [step]
  · intro hp
    simp only at hp
    subst hp
    simp [step]

/-- C6, witness: a concrete in-flight state. -/
theorem force_reindex_noop_while_indexing_witness :
    step busyState WEvent.force = busyState ∧
    step busyState WEvent.notify
      = { busyState with pendingChanges := true, timerArmed := true } ∧
    step busyState WEvent.timerFire = { busyState with timerArmed := false } ∧
    (busyState.pendingChanges = true →
      step busyState (WEvent.complete sampleIndex)
        = { busyState with isIndexing := false,
                           currentIndex := some sampleIndex,
                           storage := some sampleIndex,
                           notified := busyState.notified ++ [sampleIndex],
                           timerArmed := true }) :=
  force_reindex_noop_while_indexing busyState sampleIndex rfl

/-- C9: while the watcher holds no current index snapshot, both a
debounce-triggered re-index attempt (timer expiry) and a `forceReindex`
call return early from `reindexWorkspace`: no walk is started
(`walkCount` unchanged), nothing is saved, no subscriber is notified, and
the watcher does not enter the indexing state. -/
theorem reindex_noop_without_current_index (s : WState)
    (h : s.currentIndex = none) :
    ((step s WEvent.timerFire).walkCount = s.walkCount ∧
     (step s WEvent.timerFire).storage = s.storage ∧
     (step s WEvent.timerFire).notified = s.notified ∧
     (step s WEvent.timerFire).isIndexing = s.isIndexing) ∧
    ((step s WEvent.force).walkCount = s.walkCount ∧
     (step s WEvent.force).storage = s.storage ∧
     (step s WEvent.force).notified = s.notified ∧
     (step s WEvent.force).isIndexing = s.isIndexing) := by
  obtain ⟨ta, ii, pc, ci, wc, sg, nt⟩ := s
  simp only at h
  subst h
  constructor
  · cases ta <;> cases ii <;> cases pc <;> simp [step, startReindex]
  · cases ii <;> simp [step, startReindex]

/-- C9, witness: a concrete state with no current index. -/
theorem reindex_noop_without_current_index_witness :
    ((step unseededState WEvent.timerFire).walkCount = unseededState.walkCount ∧
     (step unseededState WEvent.timerFire).storage = unseededState.storage ∧
     (step unseededState WEvent.timerFire).notified = unseededState.notified ∧
     (step unseededState WEvent.timerFire).isIndexing = unseededState.isIndexing) ∧
    ((step unseededState WEvent.force).walkCount = unseededState.walkCount ∧
     (step unseededState WEvent.force).storage = unseededState.storage ∧
     (step unseededState WEvent.force).notified = unseededState.notified ∧
     (step unseededState WEvent.force).isIndexing = unseededState.isIndexing) :=
  reindex_noop_without_current_index unseededState rfl

end VSCodeIndexer
